import Mathlib

/-!
# Homestation: the HTML page templates of `htmlContents.h`

`htmlContents.h` holds two constant character arrays, `HTML_ROOT` and
`HTML_NOTFOUND`, each written as a C++ raw string literal `R"=-=( ... )=-="`.
The text of a raw string literal is taken verbatim, so each array starts with
the line feed that follows the opening parenthesis and ends with the line feed
in front of the closing one.  Both are embedded here as Lean string literals
with the very same characters (the file uses line feeds only and ASCII only).
The terminating NUL of each C array is not part of its text and is left out.

The first part of this development states and proves properties of the two
constants.  The second part models the token substitution that the external
renderer performs on them and proves properties of the rendered pages.
-/

set_option maxRecDepth 1000000

namespace Homestation

/-! ## The two templates -/

/-- HTML source for the main landing page. -/
def HTML_ROOT : String := "
  <!DOCTYPE html>
  <html>
    <head>
      <title>Homestation</title>
    </head>
    <body>

      <h1>Conditions in {{TKN_RM_LABEL}}:</h1>
      <p>Humidity: {{TKN_HUMIDITY}} &percnt;<br>
         Temperature: {{TKN_TEMP_C}}&deg;C ({{TKN_TEMP_F}}&deg;F)</p>

      <p>Logged: {{TKN_AGE}} ago.</p>

    </body>
  </html>
"

/-- HTML source for the Not Found page. -/
def HTML_NOTFOUND : String := "
  <!DOCTYPE html>
  <html>
    <head>
      <title>Homestation</title>
    </head>
    <body>

      <h1>404</h1>
      <p>Page Not Found!</p>

    </body>
  </html>
"

/-! ## Vocabulary for talking about the templates -/

/-- The five token names that occur in `HTML_ROOT`, in order of appearance. -/
def tokenNames : List String :=
  ["TKN_RM_LABEL", "TKN_HUMIDITY", "TKN_TEMP_C", "TKN_TEMP_F", "TKN_AGE"]

/-- The opening delimiter of a token. -/
def openDelim : List Char := ['{', '{']

/-- The closing delimiter of a token. -/
def closeDelim : List Char := ['}', '}']

/-- The literal text of the token with the given name: the name between the
two delimiters. -/
def placeholder (name : List Char) : List Char :=
  openDelim ++ name ++ closeDelim

/-- Number of occurrences of the pattern `p` in the text `t`: the number of
start positions of `t` (its suffixes) at which `p` is a prefix. -/
def occurrences (p t : List Char) : Nat :=
  (t.tails.filter (fun s => p.isPrefixOf s)).length

/-- Boolean check that every position of `t` where the opening delimiter starts
is the start of the placeholder of one of the given names. -/
def everyOpenIsToken (names : List String) (t : List Char) : Bool :=
  t.tails.all (fun s =>
    !openDelim.isPrefixOf s || names.any (fun n => (placeholder n.data).isPrefixOf s))

/-! ## The parts the two pages have in common -/

/-- The text both pages start with: from the leading line feed through the
`<body>` line and the blank line after it. -/
def commonHeader : String := "
  <!DOCTYPE html>
  <html>
    <head>
      <title>Homestation</title>
    </head>
    <body>

"

/-- The text both pages end with: from the blank line in front of `</body>`
through the final line feed. -/
def commonFooter : String := "
    </body>
  </html>
"

/-- The part of `HTML_ROOT` between the common header and the common footer. -/
def rootBody : String :=
  "      <h1>Conditions in {{TKN_RM_LABEL}}:</h1>
      <p>Humidity: {{TKN_HUMIDITY}} &percnt;<br>
         Temperature: {{TKN_TEMP_C}}&deg;C ({{TKN_TEMP_F}}&deg;F)</p>

      <p>Logged: {{TKN_AGE}} ago.</p>
"

/-- The part of `HTML_NOTFOUND` between the common header and the common
footer. -/
def notFoundBody : String :=
  "      <h1>404</h1>
      <p>Page Not Found!</p>
"

/-! ## The token substitution of the external renderer -/

/-- Modelled from the spec: the renderer is not part of `htmlContents.h`.  A
token is a placeholder of the form `{{NAME}}`; this reads the `NAME` of a token
from the text that follows its opening `{{`, which is the text in front of the
first closing `}}`.  There is no name when no `}}` follows. -/
def nameUpToClose : List Char → Option (List Char)
  | [] => none
  | c :: cs =>
    if closeDelim.isPrefixOf (c :: cs) then some []
    else (nameUpToClose cs).map (fun name => c :: name)

/-- Modelled from the spec: the renderer is not part of `htmlContents.h`.  The
name of the token `{{NAME}}` that starts at the very beginning of the text, if
one starts there. -/
def tokenAt (cs : List Char) : Option (List Char) :=
  if openDelim.isPrefixOf cs then nameUpToClose (cs.drop 2) else none

/-- Modelled from the spec: the renderer is not part of `htmlContents.h`.
"Given a template and a mapping from token name to replacement string, produce
the substituted output": one pass over the template from left to right.  Where a
token `{{NAME}}` starts whose `NAME` the mapping knows, the replacement value is
written and the token is passed over (the first argument counts the characters
of the token still to pass over), so each token is matched and replaced exactly
once and a replacement value is never read again.  Every other character is
written as it is; a token whose name the mapping does not know stays as text. -/
def renderChars (m : String → Option String) : Nat → List Char → List Char
  | _, [] => []
  | k + 1, _ :: cs => renderChars m k cs
  | 0, c :: cs =>
    match tokenAt (c :: cs) with
    | none => c :: renderChars m 0 cs
    | some name =>
      match m (String.mk name) with
      | none => c :: renderChars m 0 cs
      | some v => v.data ++ renderChars m (name.length + 3) cs

/-- Modelled from the spec: the renderer is not part of `htmlContents.h`.
Rendering a template with a mapping from token names to replacement strings. -/
def render (m : String → Option String) (t : String) : String :=
  String.mk (renderChars m 0 t.data)

/-- Modelled from the spec: the sample mapping of its testable properties. -/
def sampleMapping : String → Option String := fun name =>
  List.lookup name
    [("TKN_RM_LABEL", "Greenhouse"), ("TKN_HUMIDITY", "55"), ("TKN_TEMP_C", "21"),
     ("TKN_TEMP_F", "70"), ("TKN_AGE", "2 minutes")]

/-! ## Templates cut into segments (a device for the proofs about rendering) -/

/-- A piece of a template: plain text, or the token with the given name. -/
inductive Seg where
  | lit (s : String)
  | tok (name : String)

/-- The text of a segment as it stands in the template. -/
def Seg.text : Seg → List Char
  | Seg.lit s => s.data
  | Seg.tok name => placeholder name.data

/-- What a token with the given name turns into: its replacement value, or its
own text when the mapping does not know the name. -/
def renderToken (m : String → Option String) (name : String) : List Char :=
  match m name with
  | some v => v.data
  | none => placeholder name.data

/-- What a segment turns into. -/
def Seg.out (m : String → Option String) : Seg → List Char
  | Seg.lit s => s.data
  | Seg.tok name => renderToken m name

/-- A segment is well formed when its plain text holds no `{` and its token name
holds neither `{` nor `}`. -/
def Seg.wf : Seg → Bool
  | Seg.lit s => !s.data.contains '{'
  | Seg.tok name => !name.data.contains '{' && !name.data.contains '}'

/-- The text of a list of segments. -/
def segsText (segs : List Seg) : List Char :=
  (segs.map Seg.text).flatten

/-- What a list of segments turns into. -/
def segsOut (m : String → Option String) (segs : List Seg) : List Char :=
  (segs.map (Seg.out m)).flatten

/-- The landing page cut into segments. -/
def rootSegs : List Seg :=
  [Seg.lit "
  <!DOCTYPE html>
  <html>
    <head>
      <title>Homestation</title>
    </head>
    <body>

      <h1>",
   Seg.lit "Conditions in ", Seg.tok "TKN_RM_LABEL", Seg.lit ":",
   Seg.lit "</h1>
      <p>",
   Seg.lit "Humidity: ", Seg.tok "TKN_HUMIDITY", Seg.lit " &percnt;",
   Seg.lit "<br>
         ",
   Seg.lit "Temperature: ", Seg.tok "TKN_TEMP_C", Seg.lit "&deg;C (",
   Seg.tok "TKN_TEMP_F", Seg.lit "&deg;F)",
   Seg.lit "</p>

      <p>",
   Seg.lit "Logged: ", Seg.tok "TKN_AGE", Seg.lit " ago.",
   Seg.lit "</p>

    </body>
  </html>
"]

/-! ## Bridging lemmas: counting, prefixes and infixes -/

theorem infix_iff_exists_tail (p t : List Char) :
    p <:+: t ↔ ∃ s ∈ t.tails, p.isPrefixOf s = true := by
  rw [List.infix_iff_prefix_suffix]
  constructor
  · rintro ⟨s, hp, hs⟩
    exact ⟨s, (List.mem_tails s t).2 hs, List.isPrefixOf_iff_prefix.2 hp⟩
  · rintro ⟨s, hs, hp⟩
    exact ⟨s, List.isPrefixOf_iff_prefix.1 hp, (List.mem_tails s t).1 hs⟩

theorem occurrences_eq_zero_iff (p t : List Char) :
    occurrences p t = 0 ↔ ¬ p <:+: t := by
  rw [infix_iff_exists_tail]
  unfold occurrences
  rw [List.length_eq_zero, List.filter_eq_nil_iff]
  constructor
  · rintro h ⟨s, hs, hp⟩
    exact h s hs hp
  · intro h s hs hp
    exact h ⟨s, hs, hp⟩

theorem not_infix_of_not_mem (c d : Char) (t : List Char) (h : c ∉ t) :
    ¬ [c, d] <:+: t := by
  rintro ⟨a, b, hab⟩
  apply h
  rw [← hab]
  simp

/-! ## Properties of the two constants -/

/-- C1: each of the five placeholders `{{TKN_RM_LABEL}}`, `{{TKN_HUMIDITY}}`,
`{{TKN_TEMP_C}}`, `{{TKN_TEMP_F}}` and `{{TKN_AGE}}` occurs exactly once in
`HTML_ROOT`, counting every start position. -/
theorem root_each_token_occurs_once :
    occurrences "{{TKN_RM_LABEL}}".data HTML_ROOT.data = 1 ∧
    occurrences "{{TKN_HUMIDITY}}".data HTML_ROOT.data = 1 ∧
    occurrences "{{TKN_TEMP_C}}".data HTML_ROOT.data = 1 ∧
    occurrences "{{TKN_TEMP_F}}".data HTML_ROOT.data = 1 ∧
    occurrences "{{TKN_AGE}}".data HTML_ROOT.data = 1 := by
  decide

/-- C2: `HTML_NOTFOUND` contains no opening delimiter `{{` at all (it does not
even contain the character `{`), and hence no text of the form `{{...}}`: it
cannot be cut into a part, `{{`, a part, `}}` and a part. -/
theorem notfound_has_no_token :
    '{' ∉ HTML_NOTFOUND.data ∧
    occurrences openDelim HTML_NOTFOUND.data = 0 ∧
    ¬ openDelim <:+: HTML_NOTFOUND.data ∧
    ¬ ∃ a b c : List Char,
        HTML_NOTFOUND.data = a ++ openDelim ++ b ++ closeDelim ++ c := by
  have h0 : '{' ∉ HTML_NOTFOUND.data := by decide
  have h1 : ¬ openDelim <:+: HTML_NOTFOUND.data := not_infix_of_not_mem _ _ _ h0
  refine ⟨h0, (occurrences_eq_zero_iff _ _).2 h1, h1, ?_⟩
  rintro ⟨a, b, c, h⟩
  exact h1 ⟨a, b ++ closeDelim ++ c, by rw [h]; simp⟩

theorem everyOpenIsToken_spec (names : List String) (t : List Char)
    (h : everyOpenIsToken names t = true) (pre post : List Char)
    (ht : t = pre ++ openDelim ++ post) :
    ∃ n ∈ names, (n.data ++ closeDelim) <+: post := by
  have hs : openDelim ++ post ∈ t.tails :=
    (List.mem_tails _ _).2 ⟨pre, by rw [ht, List.append_assoc]⟩
  unfold everyOpenIsToken at h
  rw [List.all_eq_true] at h
  have h1 := h _ hs
  have h2 : openDelim.isPrefixOf (openDelim ++ post) = true :=
    List.isPrefixOf_iff_prefix.2 (List.prefix_append _ _)
  rw [h2] at h1
  simp only [Bool.not_true, Bool.false_or, List.any_eq_true] at h1
  obtain ⟨n, hn, hp⟩ := h1
  refine ⟨n, hn, ?_⟩
  have hp2 := List.isPrefixOf_iff_prefix.1 hp
  unfold placeholder at hp2
  rw [List.append_assoc] at hp2
  exact (List.prefix_append_right_inj openDelim).1 hp2

theorem eq_of_first_close (x y r1 r2 : List Char) (hx : '}' ∉ x) (hy : '}' ∉ y)
    (h : x ++ '}' :: r1 = y ++ '}' :: r2) : x = y := by
  induction x generalizing y with
  | nil =>
    cases y with
    | nil => rfl
    | cons b y =>
      simp only [List.nil_append, List.cons_append, List.cons.injEq] at h
      exact absurd (by rw [← h.1]; exact List.mem_cons_self _ _) hy
  | cons a x ih =>
    cases y with
    | nil =>
      simp only [List.nil_append, List.cons_append, List.cons.injEq] at h
      exact absurd (by rw [h.1]; exact List.mem_cons_self _ _) hx
    | cons b y =>
      simp only [List.cons_append, List.cons.injEq] at h
      rw [h.1, ih y (fun hm => hx (List.mem_cons_of_mem _ hm))
        (fun hm => hy (List.mem_cons_of_mem _ hm)) h.2]

/-- C3: the token set of `HTML_ROOT` is exactly the five documented names.
The five names are distinct; each of them is a token of `HTML_ROOT`, its
placeholder `{{NAME}}` occurring in it, and exactly once; `HTML_ROOT` holds
exactly five `{{` and exactly five `}}`; wherever `{{` occurs in it, one of the
five names and `}}` follow at once; and whenever `{{NAME}}` occurs in it for a
`NAME` without the character `}`, that `NAME` is one of the five. -/
theorem root_token_set_exact :
    tokenNames.length = 5 ∧ tokenNames.Nodup ∧
    (∀ n ∈ tokenNames, placeholder n.data <:+: HTML_ROOT.data) ∧
    (∀ n ∈ tokenNames, occurrences (placeholder n.data) HTML_ROOT.data = 1) ∧
    occurrences openDelim HTML_ROOT.data = 5 ∧
    occurrences closeDelim HTML_ROOT.data = 5 ∧
    (∀ pre post : List Char, HTML_ROOT.data = pre ++ openDelim ++ post →
      ∃ n ∈ tokenNames, (n.data ++ closeDelim) <+: post) ∧
    (∀ pre name post : List Char,
      HTML_ROOT.data = pre ++ placeholder name ++ post → '}' ∉ name →
      ∃ n ∈ tokenNames, name = n.data) := by
  have hall : everyOpenIsToken tokenNames HTML_ROOT.data = true := by decide
  have hnames : ∀ n ∈ tokenNames, '}' ∉ n.data := by decide
  refine ⟨by decide, by decide, by decide, by decide, by decide, by decide,
    everyOpenIsToken_spec _ _ hall, ?_⟩
  intro pre name post h hname
  obtain ⟨n, hn, r, hr⟩ := everyOpenIsToken_spec _ _ hall pre
    (name ++ closeDelim ++ post) (by rw [h]; simp [placeholder])
  refine ⟨n, hn, (eq_of_first_close n.data name ('}' :: r) ('}' :: post)
    (hnames n hn) hname ?_).symm⟩
  simpa [closeDelim] using hr

/-- Witness for C3: the name `TKN_TEMP_F` is one of the five, so its placeholder
occurs in `HTML_ROOT`, and exactly once; and with `HTML_ROOT` cut in front of its
fourth `{{`, that is behind the first twelve segments of `rootSegs`, one of the
five names and `}}` follow there, and the name of the token that starts there is
one of the five. -/
theorem root_token_set_exact_witness :
    "{{TKN_TEMP_F}}".data <:+: HTML_ROOT.data ∧
    occurrences "{{TKN_TEMP_F}}".data HTML_ROOT.data = 1 ∧
    (∃ n ∈ tokenNames, (n.data ++ closeDelim) <+:
      "TKN_TEMP_F".data ++ closeDelim ++ segsText (rootSegs.drop 13)) ∧
    (∃ n ∈ tokenNames, "TKN_TEMP_F".data = n.data) :=
  ⟨root_token_set_exact.2.2.1 "TKN_TEMP_F" (by decide),
   root_token_set_exact.2.2.2.1 "TKN_TEMP_F" (by decide),
   root_token_set_exact.2.2.2.2.2.2.1 (segsText (rootSegs.take 12))
      ("TKN_TEMP_F".data ++ closeDelim ++ segsText (rootSegs.drop 13)) (by decide),
   root_token_set_exact.2.2.2.2.2.2.2 (segsText (rootSegs.take 12)) "TKN_TEMP_F".data
      (segsText (rootSegs.drop 13)) (by decide) (by decide)⟩

/-- C8: the two pages differ only in their body content.  Each is the common
header, then its own body, then the common footer; the two bodies differ; the
header and the footer hold no `{` at all, and each of the five placeholders
occurs exactly once in the body of the root page. -/
theorem pages_share_header_and_footer :
    HTML_ROOT = commonHeader ++ rootBody ++ commonFooter ∧
    HTML_NOTFOUND = commonHeader ++ notFoundBody ++ commonFooter ∧
    rootBody ≠ notFoundBody ∧
    '{' ∉ commonHeader.data ∧ '{' ∉ commonFooter.data ∧
    occurrences "{{TKN_RM_LABEL}}".data rootBody.data = 1 ∧
    occurrences "{{TKN_HUMIDITY}}".data rootBody.data = 1 ∧
    occurrences "{{TKN_TEMP_C}}".data rootBody.data = 1 ∧
    occurrences "{{TKN_TEMP_F}}".data rootBody.data = 1 ∧
    occurrences "{{TKN_AGE}}".data rootBody.data = 1 := by
  decide

/-! ## The renderer on literal text and on tokens -/

theorem renderChars_nil (m : String → Option String) (k : Nat) :
    renderChars m k [] = [] := by
  cases k <;> rfl

theorem renderChars_skip (m : String → Option String) (xs rest : List Char) :
    renderChars m xs.length (xs ++ rest) = renderChars m 0 rest := by
  induction xs with
  | nil => rfl
  | cons x xs ih => simpa [renderChars] using ih

theorem openDelim_isPrefixOf_cons (c d : Char) (cs : List Char) :
    openDelim.isPrefixOf (c :: d :: cs) = (c == '{' && d == '{') := by
  simp only [openDelim, List.isPrefixOf, Bool.and_true]
  rw [Bool.beq_comm, Bool.beq_comm (a := '{')]

theorem tokenAt_of_ne (c : Char) (cs : List Char) (h : c ≠ '{') :
    tokenAt (c :: cs) = none := by
  have hp : openDelim.isPrefixOf (c :: cs) = false := by
    cases cs with
    | nil => simp [openDelim, List.isPrefixOf]
    | cons d cs => rw [openDelim_isPrefixOf_cons]; simp [h]
  simp only [tokenAt, hp]
  rfl

theorem tokenAt_open_ne (d : Char) (cs : List Char) (h : d ≠ '{') :
    tokenAt ('{' :: d :: cs) = none := by
  have hp : openDelim.isPrefixOf ('{' :: d :: cs) = false := by
    rw [openDelim_isPrefixOf_cons]; simp [h]
  simp only [tokenAt, hp]
  rfl

theorem closeDelim_isPrefixOf_cons (c d : Char) (cs : List Char) :
    closeDelim.isPrefixOf (c :: d :: cs) = (c == '}' && d == '}') := by
  simp only [closeDelim, List.isPrefixOf, Bool.and_true]
  rw [Bool.beq_comm, Bool.beq_comm (a := '}')]

theorem nameUpToClose_name (name rest : List Char) (h : '}' ∉ name) :
    nameUpToClose (name ++ closeDelim ++ rest) = some name := by
  induction name with
  | nil =>
    show nameUpToClose ('}' :: '}' :: rest) = some []
    rw [nameUpToClose, closeDelim_isPrefixOf_cons]
    rfl
  | cons a name ih =>
    have ha : a ≠ '}' := fun e => h (by rw [e]; exact List.mem_cons_self _ _)
    have ih2 := ih (fun hm => h (List.mem_cons_of_mem _ hm))
    have hp : closeDelim.isPrefixOf (a :: (name ++ closeDelim ++ rest)) = false := by
      cases hn : name ++ closeDelim ++ rest with
      | nil => simp [closeDelim, List.isPrefixOf]
      | cons d cs => rw [closeDelim_isPrefixOf_cons]; simp [ha]
    show nameUpToClose (a :: (name ++ closeDelim ++ rest)) = some (a :: name)
    rw [nameUpToClose, hp, ih2]
    rfl

theorem tokenAt_placeholder (name rest : List Char) (h : '}' ∉ name) :
    tokenAt (placeholder name ++ rest) = some name := by
  have hn := nameUpToClose_name name rest h
  have hp : openDelim.isPrefixOf (placeholder name ++ rest) = true := by
    apply List.isPrefixOf_iff_prefix.2
    exact ⟨name ++ closeDelim ++ rest, by simp [placeholder]⟩
  have hd : (placeholder name ++ rest).drop 2 = name ++ closeDelim ++ rest := by
    simp [placeholder, openDelim]
  simp only [tokenAt, hp, hd, hn, if_true]

theorem renderChars_plain (m : String → Option String) (c : Char) (cs : List Char)
    (h : tokenAt (c :: cs) = none) :
    renderChars m 0 (c :: cs) = c :: renderChars m 0 cs := by
  rw [renderChars]
  simp only [h]

theorem renderChars_unmapped (m : String → Option String) (c : Char)
    (cs name : List Char) (h : tokenAt (c :: cs) = some name)
    (hm : m (String.mk name) = none) :
    renderChars m 0 (c :: cs) = c :: renderChars m 0 cs := by
  rw [renderChars]
  simp only [h, hm]

theorem renderChars_mapped (m : String → Option String) (c : Char)
    (cs name : List Char) (v : String) (h : tokenAt (c :: cs) = some name)
    (hm : m (String.mk name) = some v) :
    renderChars m 0 (c :: cs) = v.data ++ renderChars m (name.length + 3) cs := by
  rw [renderChars]
  simp only [h, hm]

theorem renderChars_lit (m : String → Option String) (lit rest : List Char)
    (h : '{' ∉ lit) :
    renderChars m 0 (lit ++ rest) = lit ++ renderChars m 0 rest := by
  induction lit with
  | nil => rfl
  | cons c lit ih =>
    have hc : c ≠ '{' := fun e => h (by rw [e]; exact List.mem_cons_self _ _)
    rw [List.cons_append, renderChars_plain m c _ (tokenAt_of_ne c _ hc),
      ih (fun hm => h (List.mem_cons_of_mem _ hm)), List.cons_append]

theorem renderChars_token (m : String → Option String) (name : String)
    (rest : List Char) (ho : '{' ∉ name.data) (hc : '}' ∉ name.data) :
    renderChars m 0 (placeholder name.data ++ rest) =
      renderToken m name ++ renderChars m 0 rest := by
  have ht := tokenAt_placeholder name.data rest hc
  have hshape : placeholder name.data ++ rest =
      '{' :: ('{' :: (name.data ++ closeDelim) ++ rest) := by
    simp [placeholder, openDelim]
  rw [hshape] at ht ⊢
  unfold renderToken
  cases hm : m name with
  | some v =>
    have hlen : name.data.length + 3 = ('{' :: (name.data ++ closeDelim)).length := by
      simp [closeDelim]
    rw [renderChars_mapped m _ _ name.data v ht hm, hlen, renderChars_skip]
  | none =>
    have hnext : tokenAt ('{' :: (name.data ++ closeDelim ++ rest)) = none := by
      cases hn : name.data with
      | nil => exact tokenAt_open_ne _ _ (by decide)
      | cons a as =>
        exact tokenAt_open_ne _ _
          (fun e => ho (by rw [hn, e]; exact List.mem_cons_self _ _))
    have hlit : '{' ∉ name.data ++ closeDelim := by
      simp [closeDelim, ho]
    rw [renderChars_unmapped m _ _ name.data ht hm, List.cons_append,
      renderChars_plain m _ _ hnext, renderChars_lit m _ rest hlit]
    simp [placeholder, openDelim]

theorem renderChars_segs (m : String → Option String) (segs : List Seg)
    (h : ∀ s ∈ segs, s.wf = true) (rest : List Char) :
    renderChars m 0 (segsText segs ++ rest) = segsOut m segs ++ renderChars m 0 rest := by
  induction segs with
  | nil => rfl
  | cons s segs ih =>
    have hs := h s (List.mem_cons_self _ _)
    have ih2 := ih (fun t ht => h t (List.mem_cons_of_mem _ ht))
    have e1 : segsText (s :: segs) = s.text ++ segsText segs := by
      simp [segsText]
    have e2 : segsOut m (s :: segs) = s.out m ++ segsOut m segs := by
      simp [segsOut]
    rw [e1, e2, List.append_assoc, List.append_assoc]
    cases s with
    | lit t =>
      have ht : '{' ∉ t.data := by simpa [Seg.wf] using hs
      show renderChars m 0 (t.data ++ _) = t.data ++ _
      rw [renderChars_lit m _ _ ht, ih2]
    | tok name =>
      have ht : '{' ∉ name.data ∧ '}' ∉ name.data := by simpa [Seg.wf] using hs
      show renderChars m 0 (placeholder name.data ++ _) = renderToken m name ++ _
      rw [renderChars_token m name _ ht.1 ht.2, ih2]

theorem render_root_eq (m : String → Option String) :
    (render m HTML_ROOT).data = segsOut m rootSegs := by
  have h1 : HTML_ROOT.data = segsText rootSegs ++ [] := by decide
  have h2 : ∀ s ∈ rootSegs, s.wf = true := by decide
  show renderChars m 0 HTML_ROOT.data = _
  rw [h1, renderChars_segs m rootSegs h2, renderChars_nil, List.append_nil]

/-! ## Properties of the rendered pages -/

theorem open_infix_lit (p r : List Char) (hp : '{' ∉ p) :
    openDelim <:+: p ++ r ↔ openDelim <:+: r := by
  induction p with
  | nil => rfl
  | cons c p ih =>
    have hc : '{' ≠ c := fun e => hp (by rw [← e]; exact List.mem_cons_self _ _)
    rw [List.cons_append, List.infix_cons_iff, ih (fun hm => hp (List.mem_cons_of_mem _ hm))]
    constructor
    · rintro (h | h)
      · exact absurd (List.cons_prefix_cons.1 h).1 hc
      · exact h
    · exact Or.inr

theorem open_infix_value (v p r : List Char) (hv : ¬ openDelim <:+: v)
    (hp : '{' ∉ p) (hne : p ≠ []) :
    openDelim <:+: v ++ (p ++ r) ↔ openDelim <:+: r := by
  induction v with
  | nil => exact open_infix_lit p r hp
  | cons c v ih =>
    have hv2 : ¬ openDelim <:+: v := fun h => hv (List.infix_cons h)
    rw [List.cons_append, List.infix_cons_iff, ih hv2]
    constructor
    · rintro (h | h)
      · exfalso
        have h1 := (List.cons_prefix_cons.1 h)
        cases v with
        | nil =>
          cases p with
          | nil => exact hne rfl
          | cons d p =>
            have h2 := (List.cons_prefix_cons.1 h1.2).1
            exact hp (by rw [h2]; exact List.mem_cons_self _ _)
        | cons d v =>
          have h2 := (List.cons_prefix_cons.1 h1.2).1
          apply hv
          rw [← h1.1, ← h2]
          exact ⟨[], v, rfl⟩
      · exact h
    · exact Or.inr

theorem renderToken_mapped (m : String → Option String) (name v : String)
    (h : m name = some v) : renderToken m name = v.data := by
  simp only [renderToken, h]

/-- C4 (for the renderer as modelled from the spec): when the mapping gives each
of the five token names a replacement value that holds no `{{`, the rendered
landing page holds no `{{`. -/
theorem render_root_no_open (m : String → Option String)
    (h : ∀ n ∈ tokenNames, ∃ v, m n = some v ∧ ¬ openDelim <:+: v.data) :
    ¬ openDelim <:+: (render m HTML_ROOT).data := by
  obtain ⟨v1, e1, s1⟩ := h "TKN_RM_LABEL" (by decide)
  obtain ⟨v2, e2, s2⟩ := h "TKN_HUMIDITY" (by decide)
  obtain ⟨v3, e3, s3⟩ := h "TKN_TEMP_C" (by decide)
  obtain ⟨v4, e4, s4⟩ := h "TKN_TEMP_F" (by decide)
  obtain ⟨v5, e5, s5⟩ := h "TKN_AGE" (by decide)
  rw [render_root_eq]
  simp only [segsOut, rootSegs, List.map, List.flatten, Seg.out,
    renderToken_mapped m _ _ e1, renderToken_mapped m _ _ e2, renderToken_mapped m _ _ e3,
    renderToken_mapped m _ _ e4, renderToken_mapped m _ _ e5]
  rw [open_infix_lit, open_infix_lit, open_infix_value _ _ _ s1, open_infix_lit,
    open_infix_lit, open_infix_value _ _ _ s2, open_infix_lit, open_infix_lit,
    open_infix_value _ _ _ s3, open_infix_value _ _ _ s4, open_infix_lit, open_infix_lit,
    open_infix_value _ _ _ s5, open_infix_lit]
  all_goals decide

/-- Witness for C4: the sample mapping of the spec gives every token name a value
without `{{`, and the landing page rendered with it holds no `{{`. -/
theorem render_root_no_open_witness :
    (∀ n ∈ tokenNames, ∃ v, sampleMapping n = some v ∧ ¬ openDelim <:+: v.data) ∧
    ¬ openDelim <:+: (render sampleMapping HTML_ROOT).data :=
  have hs : ∀ n ∈ tokenNames,
      ∃ v, sampleMapping n = some v ∧ ¬ openDelim <:+: v.data := by
    intro n hn
    simp only [tokenNames, List.mem_cons, List.mem_singleton, List.not_mem_nil,
      or_false] at hn
    rcases hn with rfl | rfl | rfl | rfl | rfl
    · exact ⟨"Greenhouse", rfl, by decide⟩
    · exact ⟨"55", rfl, by decide⟩
    · exact ⟨"21", rfl, by decide⟩
    · exact ⟨"70", rfl, by decide⟩
    · exact ⟨"2 minutes", rfl, by decide⟩
  ⟨hs, render_root_no_open sampleMapping hs⟩

/-- C5 (for the renderer as modelled from the spec): when the mapping gives the
room label `L` and the age text `A`, the rendered landing page contains
`Conditions in L:` and `Logged: A ago.`, whatever else the mapping does. -/
theorem render_root_shows_label_and_age (m : String → Option String) (L A : String)
    (hL : m "TKN_RM_LABEL" = some L) (hA : m "TKN_AGE" = some A) :
    ("Conditions in " ++ L ++ ":").data <:+: (render m HTML_ROOT).data ∧
    ("Logged: " ++ A ++ " ago.").data <:+: (render m HTML_ROOT).data := by
  rw [render_root_eq]
  constructor
  · refine ⟨segsOut m (rootSegs.take 1), segsOut m (rootSegs.drop 4), ?_⟩
    simp [segsOut, rootSegs, Seg.out, renderToken_mapped m _ _ hL]
  · refine ⟨segsOut m (rootSegs.take 15), segsOut m (rootSegs.drop 18), ?_⟩
    simp [segsOut, rootSegs, Seg.out, renderToken_mapped m _ _ hA]

/-- Witness for C5: with the sample mapping of the spec the rendered landing page
contains `Conditions in Greenhouse:` and `Logged: 2 minutes ago.`. -/
theorem render_root_shows_label_and_age_witness :
    sampleMapping "TKN_RM_LABEL" = some "Greenhouse" ∧
    sampleMapping "TKN_AGE" = some "2 minutes" ∧
    "Conditions in Greenhouse:".data <:+: (render sampleMapping HTML_ROOT).data ∧
    "Logged: 2 minutes ago.".data <:+: (render sampleMapping HTML_ROOT).data :=
  ⟨by decide, by decide,
    render_root_shows_label_and_age sampleMapping "Greenhouse" "2 minutes"
      (by decide) (by decide)⟩

/-- C6 as stated fails (for the renderer as modelled from the spec): the landing
page rendered with the sample mapping contains neither `Humidity: 55 %` nor
`Temperature: 21°C (70°F)`. -/
theorem render_root_sample_no_percent_sign :
    ¬ "Humidity: 55 %".data <:+: (render sampleMapping HTML_ROOT).data ∧
    ¬ "Temperature: 21°C (70°F)".data <:+: (render sampleMapping HTML_ROOT).data := by
  decide

/-- C6 amended (for the renderer as modelled from the spec): the landing page
rendered with the sample mapping contains `Humidity: 55 &percnt;` and
`Temperature: 21&deg;C (70&deg;F)`, the percent sign and the degree sign being
written as the HTML entities of the template. -/
theorem render_root_sample_shows_entities :
    "Humidity: 55 &percnt;".data <:+: (render sampleMapping HTML_ROOT).data ∧
    "Temperature: 21&deg;C (70&deg;F)".data <:+:
      (render sampleMapping HTML_ROOT).data := by
  decide

/-- C7 (for the renderer as modelled from the spec): rendering `HTML_NOTFOUND`
gives `HTML_NOTFOUND` itself, for every mapping. -/
theorem render_notfound_fixed (m : String → Option String) :
    render m HTML_NOTFOUND = HTML_NOTFOUND := by
  have h := renderChars_lit m HTML_NOTFOUND.data [] (by decide)
  rw [List.append_nil, renderChars_nil, List.append_nil] at h
  show String.mk (renderChars m 0 HTML_NOTFOUND.data) = HTML_NOTFOUND
  rw [h]

end Homestation
